import Mathlib

/-!
Verification development for the mcp-svelte-docs indexing-and-ranking engine.

The definitions below are a shallow embedding of `src/search/index.ts`
(query tokenization, the main indexed query, the phrase-only query, the
direct error-collision query, the substring fallback query, category
grouping and related-term suggestions) and of `src/docs/fetcher.ts`
(section splitting, term extraction and the keyed upsert of index rows).

Modelling conventions:
  * the SQLite store is modelled relationally: the `docs` table as a list
    of rows and `search_index` as a list of rows (its PRIMARY KEY
    (doc_id, term) is modelled, where upsert semantics matter, as a
    finite map from the key to the payload);
  * `SUM`/`GROUP BY d.id` queries are evaluated per document row,
    matching the table's `id PRIMARY KEY` constraint;
  * `ORDER BY score DESC` is a stable descending sort (ties keep
    retrieval order, matching the engine's stable sort; the spec leaves
    tie order unspecified);
  * `LOWER(x) LIKE '%p%'` is lower-cased literal substring containment
    (`LIKE` metacharacters inside a phrase are out of scope);
  * JavaScript strings are ASCII-modelled: `toLowerCase` maps ASCII
    letters, `\w` is `[A-Za-z0-9_]`, `\s` is ASCII whitespace;
  * scores use `ℚ` (the engine's arithmetic on these literals is exact
    in binary floating point for every value that actually arises:
    sums of products of small integers with 1, 1.2, 1.3, 1.4, 1.5, 2).
-/

/-- ASCII word character, the `\w` class of the JavaScript regexes. -/
def isWordChar (c : Char) : Bool :=
  c.isAlphanum || c = '_'

/-- ASCII whitespace, the `\s` class of the JavaScript regexes. -/
def isSpaceChar (c : Char) : Bool :=
  c = ' ' || c = '\t' || c = '\n' || c = '\r'

/-- Lower-case a string character by character (JS `toLowerCase`, ASCII). -/
def lowerStr (s : String) : String :=
  ⟨s.data.map Char.toLower⟩

/-- Does `pat` occur at the head of `text`? -/
def leadsWith : List Char → List Char → Bool
  | [], _ => true
  | _ :: _, [] => false
  | a :: as, b :: bs => a = b && leadsWith as bs

/-- Does `pat` occur anywhere inside `text` (SQL `LIKE '%pat%'` / JS `includes`)? -/
def occursIn (pat : List Char) : List Char → Bool
  | [] => pat.isEmpty
  | c :: rest => leadsWith pat (c :: rest) || occursIn pat rest

/-- Fuel-driven scan behind `extractQuoted`; every step consumes at least one
character, so fuel equal to the text length never runs out. The structural
fuel keeps the definition kernel-computable. -/
def extractQuotedF : Nat → List Char → List (List Char) × List Char
  | 0, l => ([], l)
  | _ + 1, [] => ([], [])
  | fuel + 1, '"' :: rest =>
      -- `inner.length < rest.length` says a character stops the `takeWhile`,
      -- and that stopping character is necessarily the closing quote;
      -- `inner ≠ []` is the `+` of `"([^"]+)"` (so `""` is not a match and
      -- the first quote stays as plain text, scanning resuming after it).
      let inner := rest.takeWhile (fun c => c ≠ '"')
      if inner ≠ [] ∧ inner.length < rest.length then
        let next := extractQuotedF fuel (rest.drop (inner.length + 1))
        (inner :: next.1, next.2)
      else
        let next := extractQuotedF fuel rest
        (next.1, '"' :: next.2)
  | fuel + 1, c :: rest =>
      let next := extractQuotedF fuel rest
      (next.1, c :: next.2)

/-- Extract every double-quoted span (regex `"([^"]+)"`, global): returns the
matched inner spans in order together with the text left after removing the
matches, exactly as `query.replace(quoted_regex, '')` leaves it. -/
def extractQuoted (l : List Char) : List (List Char) × List Char :=
  extractQuotedF l.length l

/-- Fuel-driven scan behind `wordRuns`. -/
def wordRunsF : Nat → List Char → List (List Char)
  | 0, _ => []
  | _ + 1, [] => []
  | fuel + 1, c :: rest =>
      if isWordChar c then
        (c :: rest.takeWhile isWordChar) ::
          wordRunsF fuel (rest.drop (rest.takeWhile isWordChar).length)
      else
        wordRunsF fuel rest

/-- Split a character list into maximal runs of word characters (the terms
produced by `.replace(/[^\w\s]/g, ' ').split(/\s+/)` before length filtering,
with empty fragments dropped — they are removed by the length filter anyway). -/
def wordRuns (l : List Char) : List (List Char) :=
  wordRunsF l.length l

/-- Phrases of a query: each double-quoted span, lower-cased, in order
(`search_docs` step 1). -/
def queryPhrases (q : String) : List String :=
  ((extractQuoted q.data).1).map (fun cs => ⟨cs.map Char.toLower⟩)

/-- Terms of a query: quoted spans removed, lower-cased, non-word characters
replaced by spaces, split on whitespace, tokens of length ≤ 2 dropped
(`search_docs` steps 2–3). -/
def queryTerms (q : String) : List String :=
  ((wordRuns (((extractQuoted q.data).2).map Char.toLower)).filter
    (fun cs => decide (2 < cs.length))).map (fun cs => ⟨cs⟩)

/-- Fuel-driven scan behind `firstDedup`; filtering never lengthens the tail,
so fuel equal to the list length suffices. -/
def firstDedupF : Nat → List String → List String
  | 0, _ => []
  | _ + 1, [] => []
  | fuel + 1, t :: rest => t :: firstDedupF fuel (rest.filter (fun s => decide (s ≠ t)))

/-- De-duplicate keeping first occurrences (JS `new Set(terms)` iteration
order). -/
def firstDedup (l : List String) : List String :=
  firstDedupF l.length l

/-- The static `TERM_WEIGHTS` table of `src/search/index.ts`. -/
def TERM_WEIGHTS : List (String × ℚ) :=
  [("runes", 3/2), ("$state", 3/2), ("$derived", 3/2), ("$effect", 3/2),
   ("$props", 3/2), ("$bindable", 3/2),
   ("lifecycle", 13/10), ("component", 13/10), ("store", 13/10), ("reactive", 13/10),
   ("sveltekit", 7/5), ("routing", 7/5), ("server", 7/5), ("load", 7/5), ("action", 7/5),
   ("error", 6/5), ("warning", 6/5), ("debug", 6/5)]

/-- The static `RELATED_TERMS` table of `src/search/index.ts`. -/
def RELATED_TERMS : List (String × List String) :=
  [("state", ["$state", "reactive", "store", "writable"]),
   ("store", ["writable", "readable", "derived", "state", "$state"]),
   ("props", ["$props", "component", "attributes"]),
   ("effect", ["$effect", "lifecycle", "onMount", "onDestroy"]),
   ("derived", ["$derived", "computed", "store"]),
   ("route", ["routing", "navigation", "params", "sveltekit"]),
   ("params", ["routing", "dynamic", "url", "query"]),
   ("component", ["custom element", "lifecycle", "slot"]),
   ("error", ["debug", "warning", "exception", "handle"]),
   ("action", ["form", "submit", "server", "mutate"]),
   ("bind", ["binding", "$bindable", "two-way"]),
   ("slot", ["component", "children", "content"]),
   ("rune", ["$state", "$derived", "$effect", "$props"])]

/-- Lookup in an association list by string key (JS record access). -/
def lookupAssoc {β : Type} (table : List (String × β)) (key : String) : Option β :=
  (table.find? (fun kv => decide (kv.1 = key))).map (fun kv => kv.2)

/-- `TERM_WEIGHTS[t] || 1.0`: the configured weight of a term, defaulting to 1. -/
def termWeightFor (t : String) : ℚ :=
  (lookupAssoc TERM_WEIGHTS t).getD 1

/-- `RELATED_TERMS[t] || []`: direct associations of a seed term. -/
def relatedOf (t : String) : List String :=
  (lookupAssoc RELATED_TERMS t).getD []

/-- Document types (`DocType` of `src/docs/fetcher.ts`); `exampleDoc` embeds
the source's `example`, which is a Lean keyword. -/
inductive DocType where
  | api
  | tutorial
  | exampleDoc
  | error
deriving DecidableEq

/-- Packages (`Package` of `src/docs/fetcher.ts`). -/
inductive Package where
  | svelte
  | kit
  | cli
deriving DecidableEq

/-- Doc variants (`DocVariant` of `src/docs/fetcher.ts`). -/
inductive DocVariant where
  | llms
  | llmsFull
  | llmsSmall
deriving DecidableEq

/-- A row of the `docs` table (`id` is its PRIMARY KEY). -/
structure Doc where
  id : String
  type : DocType
  package : Option Package
  variant : Option DocVariant
  content : String
  hierarchy : Option (List (Option String))
deriving DecidableEq

/-- A row of the `search_index` table (PRIMARY KEY `(doc_id, term)`). -/
structure IndexEntry where
  doc_id : String
  term : String
  frequency : Nat
  section_importance : ℚ
deriving DecidableEq

/-- The relational store as read by the query side. -/
structure DB where
  docs : List Doc
  search_index : List IndexEntry
deriving DecidableEq

/-- Result categories of `determine_category`. -/
inductive Category where
  | runes
  | components
  | routing
  | error
deriving DecidableEq

/-- A search result (`SearchResult` of `src/search/index.ts`). -/
structure SearchResult where
  content : String
  type : DocType
  package : Option Package
  hierarchy : Option (List (Option String))
  relevance_score : ℚ
  category : Option Category
deriving DecidableEq

/-- A related suggestion (`RelatedSuggestion` of `src/search/index.ts`). -/
structure RelatedSuggestion where
  term : String
  relevance : ℚ
deriving DecidableEq

/-- Options of `search_docs`; `doc_type = none` is the `'all'` default and
`package = none` means no package filter. The unused `context` and
`include_hierarchy` options are omitted (the source never reads them). -/
structure SearchOptions where
  query : String
  doc_type : Option DocType
  package : Option Package

/-- Return payload of `search_docs`. -/
structure SearchOutput where
  results : List SearchResult
  related_suggestions : Option (List RelatedSuggestion)
deriving DecidableEq

/-- `determine_category`: keyword sniffing of the lower-cased content, first
match in the fixed priority order wins. -/
def determine_category (content : String) : Option Category :=
  let lower := (lowerStr content).data
  if occursIn "rune".data lower || occursIn "$state".data lower
      || occursIn "$effect".data lower then
    some Category.runes
  else if occursIn "component".data lower || occursIn "lifecycle".data lower then
    some Category.components
  else if occursIn "route".data lower || occursIn "navigation".data lower
      || occursIn "sveltekit".data lower then
    some Category.routing
  else if occursIn "error".data lower || occursIn "warning".data lower
      || occursIn "debug".data lower then
    some Category.error
  else
    none

/-- An intermediate SQL result row of the search queries. -/
structure QRow where
  id : String
  content : String
  type : DocType
  package : Option Package
  hierarchy : Option (List (Option String))
  score : ℚ
deriving DecidableEq

/-- Build a result row for document `d` with aggregate score `s`. -/
def mkQRow (d : Doc) (s : ℚ) : QRow :=
  ⟨d.id, d.content, d.type, d.package, d.hierarchy, s⟩

/-- Map a SQL row to a `SearchResult` (the `results.rows.map` of the source). -/
def toResult (row : QRow) : SearchResult :=
  { content := row.content
    type := row.type
    package := row.package
    hierarchy := row.hierarchy
    relevance_score := row.score
    category := determine_category row.content }

/-- Stable descending sort by a rational key (SQL `ORDER BY key DESC`, JS
`sort((a, b) => b.key - a.key)`). -/
def sortDescBy {α : Type} (f : α → ℚ) (l : List α) : List α :=
  List.insertionSort (fun a b => f b ≤ f a) l

/-- Document-type filter: `AND d.type = ?`, only added when the filter is not
`'all'`. -/
def typePass (dt : Option DocType) (d : Doc) : Bool :=
  match dt with
  | none => true
  | some t => decide (d.type = t)

/-- Package filter: `AND d.package = ?`, only added when a package is given. -/
def pkgPass (pk : Option Package) (d : Doc) : Bool :=
  match pk with
  | none => true
  | some p => decide (d.package = some p)

/-- Phrase filters: one `AND LOWER(d.content) LIKE '%phrase%'` per phrase. -/
def phrasesPass (phrases : List String) (d : Doc) : Bool :=
  phrases.all (fun p => occursIn p.data (lowerStr d.content).data)

/-- Index entries joined to document `d` by the main query: `d.id = si.doc_id`
plus `si.term IN (...)` when the distinct term list is non-empty. -/
def entriesFor (db : DB) (distinct : List String) (d : Doc) : List IndexEntry :=
  db.search_index.filter
    (fun e => decide (e.doc_id = d.id) && (decide (distinct = []) || decide (e.term ∈ distinct)))

/-- The parameterized `CASE si.term WHEN ? THEN ? ... ELSE 1 END` expression
(a constant `1` when there are no distinct terms). -/
def caseWeight (distinct : List String) (t : String) : ℚ :=
  if t ∈ distinct then termWeightFor t else 1

/-- Aggregate `SUM(si.frequency * si.section_importance * CASE ...)` over the
matched entries of one document. -/
def rowScore (distinct : List String) (es : List IndexEntry) : ℚ :=
  (es.map (fun e => (e.frequency : ℚ) * e.section_importance * caseWeight distinct e.term)).sum

/-- Shared tail of every SQL query of the search module:
`ORDER BY score DESC LIMIT 10` followed by the row-to-result mapping. -/
def limitMap (rows : List QRow) : List SearchResult :=
  ((sortDescBy (fun r => r.score) rows).take 10).map toResult

/-- Rows of the main indexed query (steps 6–11 of `search_docs`): inner join
`docs`–`search_index`, term restriction, phrase/type/package filters, grouped
per document. -/
def mainRows (db : DB) (distinct phrases : List String)
    (dt : Option DocType) (pk : Option Package) : List QRow :=
  db.docs.filterMap (fun d =>
    let es := entriesFor db distinct d
    if !decide (es = []) && phrasesPass phrases d && typePass dt d && pkgPass pk d then
      some (mkQRow d (rowScore distinct es))
    else
      none)

/-- Results of the main indexed query after `ORDER BY total_score DESC LIMIT 10`
and row mapping. -/
def mainQuery (db : DB) (distinct phrases : List String)
    (dt : Option DocType) (pk : Option Package) : List SearchResult :=
  limitMap (mainRows db distinct phrases dt pk)

/-- The weighted term list of the fallback search (step 12a): terms containing
the sigil or present in `TERM_WEIGHTS` at `TERM_WEIGHTS[term] || 1.5`, then up
to 3 plain terms of length > 3 at weight 1, then every phrase at weight 2,
assembled by the source's three push loops. -/
def buildFallbackTerms (distinct phrases : List String) : List (String × ℚ) :=
  let st1 := distinct.foldl
    (fun acc t =>
      if t.data.contains '$' || (lookupAssoc TERM_WEIGHTS t).isSome then
        acc ++ [(t, (lookupAssoc TERM_WEIGHTS t).getD (3/2))]
      else acc) []
  let others := (distinct.filter
    (fun t => !t.data.contains '$' && (lookupAssoc TERM_WEIGHTS t).isNone
      && decide (3 < t.length))).take 3
  let st2 := others.foldl (fun acc t => acc ++ [(t, (1 : ℚ))]) st1
  phrases.foldl (fun acc p => acc ++ [(p, (2 : ℚ))]) st2

/-- Rows of the fallback query: a document is kept when at least one weighted
term or phrase occurs in its lower-cased content (OR semantics), scored by the
sum of the weights of the conditions that hold, with type/package filters. -/
def fallbackRows (db : DB) (sts : List (String × ℚ))
    (dt : Option DocType) (pk : Option Package) : List QRow :=
  db.docs.filterMap (fun d =>
    if sts.any (fun st => occursIn st.1.data (lowerStr d.content).data)
        && typePass dt d && pkgPass pk d then
      some (mkQRow d
        ((sts.map (fun st =>
          if occursIn st.1.data (lowerStr d.content).data then st.2 else 0)).sum))
    else
      none)

/-- Results of the fallback query after `ORDER BY relevance_score DESC LIMIT 10`
and row mapping. -/
def fallbackQuery (db : DB) (sts : List (String × ℚ))
    (dt : Option DocType) (pk : Option Package) : List SearchResult :=
  limitMap (fallbackRows db sts dt pk)

/-- Rows of the `executeDirectErrorSearch` query: plain join on
`si.term = 'error' AND d.type = 'error'`, one row per joined pair, scored
`si.frequency * si.section_importance`. -/
def errorRows (db : DB) : List QRow :=
  db.docs.flatMap (fun d =>
    (db.search_index.filter
      (fun e => decide (e.term = "error") && decide (e.doc_id = d.id)
        && decide (d.type = DocType.error))).map
      (fun e => mkQRow d ((e.frequency : ℚ) * e.section_importance)))

/-- `executeDirectErrorSearch`: the direct error-collision query with
`ORDER BY total_score DESC LIMIT 10`; note its SQL has no package condition. -/
def executeDirectErrorSearch (db : DB) : List SearchResult :=
  limitMap (errorRows db)

/-- Rows of the phrase-only query: phrase/type/package filters over `docs`,
constant score 1, `LIMIT 10` with no `ORDER BY`. -/
def phraseRows (db : DB) (phrases : List String)
    (dt : Option DocType) (pk : Option Package) : List QRow :=
  db.docs.filterMap (fun d =>
    if phrasesPass phrases d && typePass dt d && pkgPass pk d then
      some (mkQRow d 1)
    else
      none)

/-- JS record key of a result's category bucket. -/
def catKey : Option Category → String
  | some Category.runes => "runes"
  | some Category.components => "components"
  | some Category.routing => "routing"
  | some Category.error => "error"
  | none => "other"

/-- Append a result to its category bucket, creating the bucket at the end on
first use (JS record insertion order). -/
def insertBucket : List (String × List SearchResult) → String → SearchResult →
    List (String × List SearchResult)
  | [], k, r => [(k, [r])]
  | (k', l) :: rest, k, r =>
      if k' = k then (k', l ++ [r]) :: rest else (k', l) :: insertBucket rest k r

/-- `group_by_category`: reduce the results into category buckets. -/
def group_by_category (rs : List SearchResult) : List (String × List SearchResult) :=
  rs.foldl (fun acc r => insertBucket acc (catKey r.category) r) []

/-- `flatten_grouped_results`: concatenate the buckets in key order and sort
descending by relevance score. -/
def flatten_grouped_results (g : List (String × List SearchResult)) : List SearchResult :=
  sortDescBy (fun r => r.relevance_score) ((g.map (fun kv => kv.2)).flatten)

/-- Accumulator of `generate_related_suggestions`: the `seen` set and the
suggestion list under construction. -/
structure SugAcc where
  seen : List String
  out : List RelatedSuggestion

/-- Push one candidate suggestion unless it already appears in the query's
term list or in `seen`. -/
def pushSug (terms : List String) (acc : SugAcc) (cand : String) (rel : ℚ) : SugAcc :=
  if decide (cand ∈ terms) || decide (cand ∈ acc.seen) then acc
  else { seen := cand :: acc.seen, out := acc.out ++ [⟨cand, rel⟩] }

/-- Direct associations of one query term, each at `TERM_WEIGHTS[r] || 1.0`. -/
def sugDirect (terms : List String) (acc : SugAcc) (t : String) : SugAcc :=
  (relatedOf t).foldl (fun acc r => pushSug terms acc r (termWeightFor r)) acc

/-- Key-matching pass of one query term: every key of `RELATED_TERMS` that is
a mutual substring of the term (and differs from it) contributes all of its
associations at `(TERM_WEIGHTS[rt] || 1.0) * 0.8`. -/
def sugKeys (terms : List String) (acc : SugAcc) (t : String) : SugAcc :=
  RELATED_TERMS.foldl
    (fun acc kv =>
      if (occursIn t.data kv.1.data || occursIn kv.1.data t.data) && decide (kv.1 ≠ t) then
        kv.2.foldl (fun acc rt => pushSug terms acc rt (termWeightFor rt * (4/5))) acc
      else acc) acc

/-- Processing of one query term: skipped when of length ≤ 2, otherwise the
direct pass followed by the key-matching pass. -/
def sugStep (terms : List String) (acc : SugAcc) (t : String) : SugAcc :=
  if t.length ≤ 2 then acc else sugKeys terms (sugDirect terms acc t) t

/-- `generate_related_suggestions`: fold over the query terms, sort descending
by relevance and keep the first 5. -/
def generate_related_suggestions (terms : List String) : List RelatedSuggestion :=
  (sortDescBy (fun s => s.relevance) ((terms.foldl (sugStep terms) ⟨[], []⟩).out)).take 5

/-- Wrap a suggestion list the way the source returns it: `undefined` when
empty. -/
def optSome (l : List RelatedSuggestion) : Option (List RelatedSuggestion) :=
  if l = [] then none else some l

/-- Split on whitespace runs (the `p.split(/\s+/)` used for phrase-derived
suggestion seeds; empty fragments are dropped by the length ≤ 2 skip anyway). -/
def splitWs (s : String) : List String :=
  ((s.data.splitOnP isSpaceChar).filter (fun cs => decide (cs ≠ []))).map (fun cs => ⟨cs⟩)

/-- `phrase_only_search`: the phrase-only query, grouped and flattened, with
suggestions seeded from the naive whitespace split of the phrases. -/
def phrase_only_search (db : DB) (phrases : List String)
    (dt : Option DocType) (pk : Option Package) : SearchOutput :=
  let rs := ((phraseRows db phrases dt pk).take 10).map toResult
  { results := flatten_grouped_results (group_by_category rs)
    related_suggestions := optSome (generate_related_suggestions (phrases.flatMap splitWs)) }

/-- `search_docs`: tokenization, the phrase-only branch, the error-collision
branch (its source condition `doc_type === 'error' && distinctTerms.includes('error')
&& distinctTerms.length === 1 && distinctTerms[0] === 'error'` is written as
`distinct = ["error"]`), the main indexed query, the fallback, and assembly. -/
def search_docs (db : DB) (opts : SearchOptions) : SearchOutput :=
  let phrases := queryPhrases opts.query
  let terms := queryTerms opts.query
  if terms = [] ∧ phrases ≠ [] then
    phrase_only_search db phrases opts.doc_type opts.package
  else
    let distinct := firstDedup terms
    if opts.doc_type = some DocType.error ∧ distinct = ["error"] then
      { results := executeDirectErrorSearch db
        related_suggestions := optSome (generate_related_suggestions ["error"]) }
    else
      let primary := mainQuery db distinct phrases opts.doc_type opts.package
      let finalRs :=
        if primary = [] ∧ (distinct ≠ [] ∨ phrases ≠ []) then
          let sts := buildFallbackTerms distinct phrases
          if sts ≠ [] then fallbackQuery db sts opts.doc_type opts.package else primary
        else primary
      { results := flatten_grouped_results (group_by_category finalRs)
        related_suggestions := optSome (generate_related_suggestions terms) }

/-! Indexer side: the first pass of `process_docs` in `src/docs/fetcher.ts`
(section splitting, heading handling, term extraction) and the keyed upsert
of `search_index` rows. -/

/-- ASCII lower-case alphabetic character (`[a-zA-Z]` applied to the already
lower-cased section text). -/
def isAsciiAlpha (c : Char) : Bool :=
  ('a' ≤ c && c ≤ 'z') || ('A' ≤ c && c ≤ 'Z')

/-- Split on occurrences of the two-character separator `"\n\n"`, left to
right, non-overlapping (JS `content.split('\n\n')`); `cur` holds the current
fragment reversed. -/
def splitBlankAux : List Char → List Char → List (List Char)
  | cur, [] => [cur.reverse]
  | cur, '\n' :: '\n' :: rest => cur.reverse :: splitBlankAux [] rest
  | cur, c :: rest => splitBlankAux (c :: cur) rest

/-- The blank-line sections of a document text. -/
def splitBlank (content : String) : List String :=
  (splitBlankAux [] content.data).map (fun cs => ⟨cs⟩)

/-- JS `section.trim()` is truthy exactly when the section has a character
that is not whitespace. -/
def hasNonWs (s : String) : Bool :=
  s.data.any (fun c => !isSpaceChar c)

/-- Join identifier parts with hyphens (JS `id_parts.join('-')`). -/
def joinHyphen : List String → String
  | [] => ""
  | [s] => s
  | s :: rest => s ++ "-" ++ joinHyphen rest

/-- Fuel-driven scan behind `scanSpecial`. -/
def scanSpecialF : Nat → List Char → List (List Char)
  | 0, _ => []
  | _ + 1, [] => []
  | fuel + 1, '$' :: rest =>
      match rest with
      | [] => []
      | c :: rs =>
          if isAsciiAlpha c then
            ('$' :: c :: rs.takeWhile isWordChar) ::
              scanSpecialF fuel (rs.drop (rs.takeWhile isWordChar).length)
          else
            scanSpecialF fuel (c :: rs)
  | fuel + 1, _ :: rest => scanSpecialF fuel rest

/-- Scan for sigil tokens: the global regex `\$[a-zA-Z][a-zA-Z0-9_]*`,
non-overlapping, left to right, greedy. -/
def scanSpecial (l : List Char) : List (List Char) :=
  scanSpecialF l.length l

/-- Bump the count of a term, keeping first-occurrence key order (the JS
`reduce` into a record). -/
def bumpCount : List (String × Nat) → String → List (String × Nat)
  | [], t => [(t, 1)]
  | (s, n) :: rest, t =>
      if s = t then (s, n + 1) :: rest else (s, n) :: bumpCount rest t

/-- Term frequencies of a token list, in first-occurrence order. -/
def countTerms (tokens : List String) : List (String × Nat) :=
  tokens.foldl bumpCount []

/-- Merge `{...normalTerms, ...specialTerms}`: normal keys first (values
overridden by a special count for the same key), then the special keys not
already present. -/
def mergeCounts (normal special : List (String × Nat)) : List (String × Nat) :=
  normal.map (fun sn => (sn.1, (lookupAssoc special sn.1).getD sn.2))
    ++ special.filter (fun sn => (lookupAssoc normal sn.1).isNone)

/-- Term population of one content section: general word tokens of length > 2
from the lower-cased text, overridden and extended by the sigil tokens. -/
def sectionTerms (sct : String) : List (String × Nat) :=
  let lower := (lowerStr sct).data
  let special := countTerms ((scanSpecial lower).map (fun cs => ⟨cs⟩))
  let normal := countTerms
    (((wordRuns lower).filter (fun cs => decide (2 < cs.length))).map (fun cs => ⟨cs⟩))
  mergeCounts normal special

/-- URL path segment of a package (the strings pushed into `id_parts`). -/
def pkgName : Package → String
  | Package.svelte => "svelte"
  | Package.kit => "kit"
  | Package.cli => "cli"

/-- Variant string as pushed into `id_parts`. -/
def variantName : DocVariant → String
  | DocVariant.llms => "llms"
  | DocVariant.llmsFull => "llms-full"
  | DocVariant.llmsSmall => "llms-small"

/-- A processed document of the first pass (`DocMetadata & { content }`). -/
structure PDoc where
  id : String
  type : DocType
  package : Option Package
  variant : Option DocVariant
  hierarchy : List (Option String)
  content : String
deriving DecidableEq

/-- One entry of `index_operations`. -/
structure IndexOp where
  id : String
  weight : ℚ
  terms : List (String × Nat)
deriving DecidableEq

/-- Fold state of the first pass: current document type, current hierarchy
(entries may be `none`, the JS `undefined` from `current_hierarchy[0]` on an
initial second-level heading), and the two accumulated lists. -/
structure PState where
  ctype : DocType
  hier : List (Option String)
  docsAcc : List PDoc
  opsAcc : List IndexOp

/-- Document type sniffing of a top-level heading. -/
def sniffType (sct : String) (prev : DocType) : DocType :=
  let lower := (lowerStr sct).data
  if occursIn "api".data lower then DocType.api
  else if occursIn "tutorial".data lower then DocType.tutorial
  else if occursIn "example".data lower then DocType.exampleDoc
  else if occursIn "error".data lower then DocType.error
  else prev

/-- Identifier of a content unit: package, variant, and the lower-cased
hierarchy segments (an `undefined` segment contributing the empty string),
joined by hyphens. -/
def docIdOf (pkg : Option Package) (variant : Option DocVariant)
    (hier : List (Option String)) : String :=
  joinHyphen
    ((pkg.elim [] (fun p => [pkgName p])) ++ (variant.elim [] (fun v => [variantName v]))
      ++ hier.map (fun h => (h.map lowerStr).getD ""))

/-- Step of the first pass over one blank-line-separated section. -/
def processStep (pkg : Option Package) (variant : Option DocVariant)
    (s : PState) (sct : String) : PState :=
  if leadsWith "# ".data sct.data then
    { s with hier := [some ⟨sct.data.drop 2⟩], ctype := sniffType sct s.ctype }
  else if leadsWith "## ".data sct.data then
    { s with hier := [(s.hier.head?).getD none, some ⟨sct.data.drop 3⟩] }
  else if hasNonWs sct then
    let id := docIdOf pkg variant s.hier
    { s with
      docsAcc := s.docsAcc ++
        [{ id := id, type := s.ctype, package := pkg, variant := variant,
           hierarchy := s.hier, content := sct }]
      opsAcc := s.opsAcc ++
        [{ id := id, weight := if s.hier.length = 1 then 2 else 1,
           terms := sectionTerms sct }] }
  else s

/-- First pass of `process_docs`: split on blank-line boundaries and fold. -/
def processPass (content : String) (pkg : Option Package)
    (variant : Option DocVariant) : List PDoc × List IndexOp :=
  let fin := (splitBlank content).foldl (processStep pkg variant)
    { ctype := DocType.api, hier := [], docsAcc := [], opsAcc := [] }
  (fin.docsAcc, fin.opsAcc)

/-- `process_docs` as seen by its caller: the processed document list (empty
when no content units were produced). Store writes are modelled separately. -/
def process_docs_model (content : String) (pkg : Option Package)
    (variant : Option DocVariant) : List PDoc :=
  (processPass content pkg variant).1

/-- The `search_index` table as a keyed store: a finite map from the PRIMARY
KEY `(doc_id, term)` to `(frequency, section_importance)`. -/
abbrev IndexTable : Type := String × String → Option (Nat × ℚ)

/-- `INSERT OR REPLACE` of one row: the key now maps to the new payload. -/
def upsertEntry (t : IndexTable) (k : String × String) (v : Nat × ℚ) : IndexTable :=
  fun k2 => if k2 = k then some v else t k2

/-- Apply a sequence of row upserts in order. -/
def applyOps (t : IndexTable) (ops : List ((String × String) × Nat × ℚ)) : IndexTable :=
  ops.foldl (fun t kv => upsertEntry t kv.1 kv.2) t

/-- Payload of the last upsert of a given key in a sequence, if any. -/
def findLastVal : List ((String × String) × Nat × ℚ) → String × String → Option (Nat × ℚ)
  | [], _ => none
  | kv :: rest, k =>
      match findLastVal rest k with
      | some w => some w
      | none => if kv.1 = k then some kv.2 else none

/-- The `search_index` rows upserted by one run of `process_docs` over given
content, flattened in execution order (sub-batching only affects transaction
boundaries, not the rows written on a successful run). -/
def indexRows (content : String) (pkg : Option Package)
    (variant : Option DocVariant) : List ((String × String) × Nat × ℚ) :=
  (processPass content pkg variant).2.flatMap
    (fun op => op.terms.map (fun tn => ((op.id, tn.1), (tn.2, op.weight))))

/-- Re-index one fetched document text: upsert every produced index row. -/
def reindex (t : IndexTable) (content : String) (pkg : Option Package)
    (variant : Option DocVariant) : IndexTable :=
  applyOps t (indexRows content pkg variant)

/-! Initialization side: `init_docs` and the catch branch of `fetch_docs`. -/

/-- Outcome of `fetch_docs` for one URL, as a pure function of the network
outcome (`none` models a failed fetch or a non-ok response): the catch branch
turns any failure into an empty list, and a successful fetch returns the
processed documents. -/
def fetch_docs_model (contents : Package → Option String) (p : Package) : List PDoc :=
  match contents p with
  | none => []
  | some c => process_docs_model c (some p) none

/-- Decision logic of `init_docs`: skip when documents already exist; then the
three package docs are mandatory — if any fetch produced zero documents the
initialization throws; the root-doc fetches (given by `roots`) are attempted
inside a try/catch whose outcome is ignored. -/
def init_docs_model (existingCount : Nat) (contents : Package → Option String)
    (roots : DocVariant → Option String) : Except String Unit :=
  if existingCount > 0 then Except.ok ()
  else if ([Package.svelte, Package.kit, Package.cli].any
      (fun p => decide (fetch_docs_model contents p = []))) then
    Except.error "Failed to fetch required package documentation"
  else
    let _rootsFetched := [DocVariant.llms, DocVariant.llmsFull, DocVariant.llmsSmall].map
      (fun v => (roots v).elim [] (fun c => process_docs_model c none (some v)))
    Except.ok ()

/-- Eligible documents of a term-free main query: those with at least one
index entry (the inner join keeps a document exactly when an entry matches). -/
def docsWithEntries (db : DB) : List Doc :=
  db.docs.filter
    (fun d => !decide (db.search_index.filter (fun e => decide (e.doc_id = d.id)) = []))

/-- Aggregate `SUM(si.frequency * si.section_importance)` over every index
entry of one document. -/
def allEntriesScore (db : DB) (d : Doc) : ℚ :=
  ((db.search_index.filter (fun e => decide (e.doc_id = d.id))).map
    (fun e => (e.frequency : ℚ) * e.section_importance)).sum

/-- Provenance predicate for one emitted suggestion: it is not a query term,
and it is either a direct association of some query term of length > 2 at its
configured weight (`TERM_WEIGHTS` entry, default 1), or an association of a
`RELATED_TERMS` key that is a mutual substring of (and differs from) some
query term of length > 2, at 0.8 times that weight. -/
def suggestionOk (terms : List String) (s : RelatedSuggestion) : Prop :=
  s.term ∉ terms ∧
  ((∃ t ∈ terms, 2 < t.length ∧ s.term ∈ relatedOf t ∧ s.relevance = termWeightFor s.term) ∨
   (∃ t ∈ terms, ∃ kv ∈ RELATED_TERMS, 2 < t.length ∧
      (occursIn t.data kv.1.data = true ∨ occursIn kv.1.data t.data = true) ∧ kv.1 ≠ t ∧
      s.term ∈ kv.2 ∧ s.relevance = termWeightFor s.term * (4/5)))

/-- Concrete store with a single `error`-typed document of package `kit` whose
content is `"Error handling"`, carrying one index entry for the term `error`. -/
def errDb : DB :=
  { docs := [{ id := "d1", type := DocType.error, package := some Package.kit,
               variant := none, content := "Error handling", hierarchy := none }],
    search_index := [{ doc_id := "d1", term := "error", frequency := 1,
                       section_importance := 1 }] }

/-- Concrete store with a single document containing the phrase
`state management` and no index entries. -/
def phraseDb : DB :=
  { docs := [{ id := "p1", type := DocType.api, package := some Package.svelte,
               variant := none, content := "All about state management in Svelte",
               hierarchy := none }],
    search_index := [] }

/-! Helper lemmas: sorting, limiting, grouping. -/

theorem sortDescBy_sorted {α : Type} (f : α → ℚ) (l : List α) :
    (sortDescBy f l).Sorted (fun a b => f b ≤ f a) := by
  haveI : IsTotal α (fun a b => f b ≤ f a) := ⟨fun a b => le_total (f b) (f a)⟩
  haveI : IsTrans α (fun a b => f b ≤ f a) := ⟨fun _ _ _ h1 h2 => le_trans h2 h1⟩
  exact List.sorted_insertionSort _ l

theorem sortDescBy_perm {α : Type} (f : α → ℚ) (l : List α) :
    (sortDescBy f l).Perm l :=
  List.perm_insertionSort _ l

theorem mem_sortDescBy {α : Type} {f : α → ℚ} {l : List α} {x : α} :
    x ∈ sortDescBy f l ↔ x ∈ l :=
  (sortDescBy_perm f l).mem_iff

theorem sorted_take {α : Type} {R : α → α → Prop} {l : List α} (h : l.Sorted R) (n : Nat) :
    (l.take n).Sorted R :=
  List.Pairwise.sublist (List.take_sublist n l) h

theorem length_limitMap (rows : List QRow) : (limitMap rows).length ≤ 10 := by
  unfold limitMap
  rw [List.length_map]
  exact List.length_take_le 10 _

theorem sorted_limitMap (rows : List QRow) :
    (limitMap rows).Sorted (fun a b => b.relevance_score ≤ a.relevance_score) := by
  unfold limitMap
  apply List.Pairwise.map toResult (fun (a b : QRow) (hab : b.score ≤ a.score) => hab)
  exact sorted_take (sortDescBy_sorted (fun r => r.score) rows) 10

theorem mem_limitMap {rows : List QRow} {r : SearchResult} (h : r ∈ limitMap rows) :
    ∃ row ∈ rows, r = toResult row := by
  unfold limitMap at h
  obtain ⟨row, hrow, hmap⟩ := List.mem_map.mp h
  exact ⟨row, mem_sortDescBy.mp (List.mem_of_mem_take hrow), hmap.symm⟩

theorem limitMap_ne_nil {rows : List QRow} (h : rows ≠ []) : limitMap rows ≠ [] := by
  unfold limitMap
  intro hcon
  rw [List.map_eq_nil_iff, List.take_eq_nil_iff] at hcon
  rcases hcon with h10 | hs
  · exact absurd h10 (by decide)
  · have hperm := (sortDescBy_perm (fun r => r.score) rows).symm
    rw [hs] at hperm
    exact h hperm.eq_nil

theorem insertBucket_flatten_perm (g : List (String × List SearchResult))
    (k : String) (r : SearchResult) :
    (((insertBucket g k r).map (fun kv => kv.2)).flatten).Perm
      (r :: ((g.map (fun kv => kv.2)).flatten)) := by
  induction g with
  | nil => simp [insertBucket]
  | cons kv rest ih =>
      obtain ⟨k1, l1⟩ := kv
      by_cases hk : k1 = k
      · simp only [insertBucket, if_pos hk, List.map_cons, List.flatten_cons]
        rw [List.append_assoc]
        exact List.perm_middle
      · simp only [insertBucket, if_neg hk, List.map_cons, List.flatten_cons]
        exact (ih.append_left l1).trans List.perm_middle

theorem groupFold_flatten_perm (rs : List SearchResult)
    (acc : List (String × List SearchResult)) :
    (((rs.foldl (fun acc r => insertBucket acc (catKey r.category) r) acc).map
        (fun kv => kv.2)).flatten).Perm
      (((acc.map (fun kv => kv.2)).flatten) ++ rs) := by
  induction rs generalizing acc with
  | nil => simp
  | cons r rest ih =>
      simp only [List.foldl_cons]
      refine (ih (insertBucket acc (catKey r.category) r)).trans ?_
      refine ((insertBucket_flatten_perm acc (catKey r.category) r).append_right rest).trans ?_
      exact (List.perm_middle).symm

theorem group_flatten_perm (rs : List SearchResult) :
    ((((group_by_category rs).map (fun kv => kv.2)).flatten)).Perm rs := by
  unfold group_by_category
  simpa using groupFold_flatten_perm rs []

theorem flatten_grouped_length (rs : List SearchResult) :
    (flatten_grouped_results (group_by_category rs)).length = rs.length := by
  unfold flatten_grouped_results
  have h1 := (sortDescBy_perm (fun r => r.relevance_score)
    (((group_by_category rs).map (fun kv => kv.2)).flatten)).length_eq
  rw [h1]
  exact (group_flatten_perm rs).length_eq

theorem mem_flatten_grouped {rs : List SearchResult} {x : SearchResult} :
    x ∈ flatten_grouped_results (group_by_category rs) ↔ x ∈ rs := by
  unfold flatten_grouped_results
  exact Iff.trans
    (@mem_sortDescBy SearchResult (fun r => r.relevance_score)
      (((group_by_category rs).map (fun kv => kv.2)).flatten) x)
    (group_flatten_perm rs).mem_iff

theorem flatten_grouped_sorted (g : List (String × List SearchResult)) :
    (flatten_grouped_results g).Sorted (fun a b => b.relevance_score ≤ a.relevance_score) :=
  sortDescBy_sorted (fun r : SearchResult => r.relevance_score) _

/-! Helper lemmas: membership in the query row lists. -/

theorem filterMap_guard {α β : Type} (p : α → Bool) (g : α → β) (l : List α) :
    l.filterMap (fun a => if p a then some (g a) else none) = (l.filter p).map g := by
  induction l with
  | nil => rfl
  | cons a rest ih =>
      by_cases hp : p a
      · simp [List.filterMap_cons, List.filter_cons, hp, ih]
      · simp [List.filterMap_cons, List.filter_cons, hp, ih]

theorem mem_mainRows {db : DB} {distinct phrases : List String}
    {dt : Option DocType} {pk : Option Package} {row : QRow}
    (h : row ∈ mainRows db distinct phrases dt pk) :
    ∃ d ∈ db.docs, entriesFor db distinct d ≠ [] ∧ phrasesPass phrases d = true ∧
      typePass dt d = true ∧ pkgPass pk d = true ∧
      row = mkQRow d (rowScore distinct (entriesFor db distinct d)) := by
  unfold mainRows at h
  obtain ⟨d, hd, heq⟩ := List.mem_filterMap.mp h
  refine ⟨d, hd, ?_⟩
  dsimp only at heq
  split at heq
  · rename_i hcond
    simp only [Bool.and_eq_true, Bool.not_eq_true', decide_eq_false_iff_not] at hcond
    exact ⟨hcond.1.1.1, hcond.1.1.2, hcond.1.2, hcond.2, (Option.some.injEq _ _).mp heq |>.symm⟩
  · exact absurd heq (by simp)

theorem mem_phraseRows {db : DB} {phrases : List String}
    {dt : Option DocType} {pk : Option Package} {row : QRow}
    (h : row ∈ phraseRows db phrases dt pk) :
    ∃ d ∈ db.docs, phrasesPass phrases d = true ∧ typePass dt d = true ∧
      pkgPass pk d = true ∧ row = mkQRow d 1 := by
  unfold phraseRows at h
  obtain ⟨d, hd, heq⟩ := List.mem_filterMap.mp h
  refine ⟨d, hd, ?_⟩
  split at heq
  · rename_i hcond
    simp only [Bool.and_eq_true] at hcond
    exact ⟨hcond.1.1, hcond.1.2, hcond.2, (Option.some.injEq _ _).mp heq |>.symm⟩
  · exact absurd heq (by simp)

theorem mem_errorRows {db : DB} {row : QRow} (h : row ∈ errorRows db) :
    ∃ d ∈ db.docs, ∃ e ∈ db.search_index, e.doc_id = d.id ∧ e.term = "error" ∧
      d.type = DocType.error ∧ row = mkQRow d ((e.frequency : ℚ) * e.section_importance) := by
  unfold errorRows at h
  obtain ⟨d, hd, hin⟩ := List.mem_flatMap.mp h
  obtain ⟨e, he, heq⟩ := List.mem_map.mp hin
  have hef := List.of_mem_filter he
  simp only [Bool.and_eq_true, decide_eq_true_eq] at hef
  exact ⟨d, hd, e, List.mem_of_mem_filter he, hef.1.2, hef.1.1, hef.2, heq.symm⟩

theorem phrasesPass_all {phrases : List String} {d : Doc} (h : phrasesPass phrases d = true) :
    ∀ p ∈ phrases, occursIn p.data (lowerStr d.content).data = true := by
  unfold phrasesPass at h
  exact List.all_eq_true.mp h

/-! Helper lemmas: keyed upserts. -/

theorem applyOps_eval (ops : List ((String × String) × Nat × ℚ)) (t : IndexTable)
    (k : String × String) :
    applyOps t ops k = (findLastVal ops k).elim (t k) some := by
  induction ops generalizing t with
  | nil => rfl
  | cons kv rest ih =>
      show applyOps (upsertEntry t kv.1 kv.2) rest k = _
      rw [ih]
      cases hfl : findLastVal rest k with
      | some w => simp [findLastVal, hfl]
      | none =>
          by_cases hk : kv.1 = k
          · simp [findLastVal, hfl, upsertEntry, hk]
          · have hk2 : ¬(k = kv.1) := fun h => hk h.symm
            simp [findLastVal, hfl, upsertEntry, hk, hk2]

theorem firstDedup_ne_nil {l : List String} (h : firstDedup l = ["error"]) : l ≠ [] := by
  intro hcon
  rw [hcon] at h
  exact absurd h (by decide)

theorem search_docs_error_branch (db : DB) (q : String) (pk : Option Package)
    (h1 : firstDedup (queryTerms q) = ["error"]) :
    search_docs db { query := q, doc_type := some DocType.error, package := pk }
      = { results := executeDirectErrorSearch db
          related_suggestions := optSome (generate_related_suggestions ["error"]) } := by
  have hterms : queryTerms q ≠ [] := firstDedup_ne_nil h1
  simp only [search_docs]
  split
  · rename_i hcon
    exact absurd hcon.1 hterms
  · split
    · rfl
    · rename_i hcon2
      exact absurd ⟨trivial, h1⟩ hcon2

/-! Helper lemmas: the push-loop shapes of the fallback term list. -/

theorem foldl_push_filter {α β : Type} (p : α → Bool) (g : α → β) (l : List α)
    (acc : List β) :
    l.foldl (fun acc t => if p t then acc ++ [g t] else acc) acc
      = acc ++ (l.filter p).map g := by
  induction l generalizing acc with
  | nil => simp
  | cons a rest ih =>
      by_cases hp : p a
      · simp [List.filter_cons, hp, ih, List.append_assoc]
      · simp [List.filter_cons, hp, ih]

theorem foldl_push_map {α β : Type} (g : α → β) (l : List α) (acc : List β) :
    l.foldl (fun acc t => acc ++ [g t]) acc = acc ++ l.map g := by
  induction l generalizing acc with
  | nil => simp
  | cons a rest ih => simp [ih, List.append_assoc]

/-! Helper lemmas: the term-free main query. -/

theorem entriesFor_nil (db : DB) (d : Doc) :
    entriesFor db [] d = db.search_index.filter (fun e => decide (e.doc_id = d.id)) := by
  unfold entriesFor
  simp

theorem rowScore_nil (es : List IndexEntry) :
    rowScore [] es = (es.map (fun e => (e.frequency : ℚ) * e.section_importance)).sum := by
  unfold rowScore caseWeight
  simp

/-! Helper lemmas: the suggestion engine. -/

theorem pushSug_inv {terms : List String} {P : RelatedSuggestion → Prop} {acc : SugAcc}
    {cand : String} {rel : ℚ}
    (hacc : ∀ s ∈ acc.out, P s) (hnew : cand ∉ terms → P ⟨cand, rel⟩) :
    ∀ s ∈ (pushSug terms acc cand rel).out, P s := by
  unfold pushSug
  split
  · exact hacc
  · rename_i hcond
    simp only [Bool.or_eq_true, decide_eq_true_eq, not_or] at hcond
    intro s hs
    rcases List.mem_append.mp hs with h | h
    · exact hacc s h
    · rw [List.mem_singleton] at h
      subst h
      exact hnew hcond.1

theorem foldl_pushSug_inv {terms : List String} {P : RelatedSuggestion → Prop}
    (g : String → ℚ) (l : List String) (acc : SugAcc)
    (hacc : ∀ s ∈ acc.out, P s)
    (hstep : ∀ r ∈ l, r ∉ terms → P ⟨r, g r⟩) :
    ∀ s ∈ (l.foldl (fun acc r => pushSug terms acc r (g r)) acc).out, P s := by
  induction l generalizing acc with
  | nil => exact hacc
  | cons r rest ih =>
      simp only [List.foldl_cons]
      exact ih (pushSug terms acc r (g r))
        (pushSug_inv hacc (hstep r (List.mem_cons_self r rest)))
        (fun x hx hnx => hstep x (List.mem_cons_of_mem r hx) hnx)

theorem sugDirect_inv {terms : List String} {acc : SugAcc} {t : String}
    (ht : t ∈ terms) (hlen : 2 < t.length)
    (hacc : ∀ s ∈ acc.out, suggestionOk terms s) :
    ∀ s ∈ (sugDirect terms acc t).out, suggestionOk terms s := by
  unfold sugDirect
  refine foldl_pushSug_inv termWeightFor (relatedOf t) acc hacc ?_
  intro r hr hnr
  exact ⟨hnr, Or.inl ⟨t, ht, hlen, hr, rfl⟩⟩

theorem sugKeysFold_inv {terms : List String} {t : String}
    (ht : t ∈ terms) (hlen : 2 < t.length)
    (l : List (String × List String)) (acc : SugAcc) :
    (∀ kv ∈ l, kv ∈ RELATED_TERMS) → (∀ s ∈ acc.out, suggestionOk terms s) →
    ∀ s ∈ (l.foldl
      (fun acc kv =>
        if (occursIn t.data kv.1.data || occursIn kv.1.data t.data)
            && decide (kv.1 ≠ t) then
          kv.2.foldl (fun acc rt => pushSug terms acc rt (termWeightFor rt * (4/5))) acc
        else acc) acc).out, suggestionOk terms s := by
  induction l generalizing acc with
  | nil => intro _ hacc; exact hacc
  | cons kv rest ih =>
      intro hsub hacc
      simp only [List.foldl_cons]
      refine ih _ (fun x hx => hsub x (List.mem_cons_of_mem kv hx)) ?_
      by_cases hc : ((occursIn t.data kv.1.data || occursIn kv.1.data t.data)
          && decide (kv.1 ≠ t)) = true
      · rw [if_pos hc]
        have hc2 := hc
        simp only [Bool.and_eq_true, Bool.or_eq_true, decide_eq_true_eq] at hc2
        refine foldl_pushSug_inv _ kv.2 acc hacc ?_
        intro rt hrt hnrt
        exact ⟨hnrt, Or.inr ⟨t, ht, kv, hsub kv (List.mem_cons_self kv rest), hlen,
          hc2.1, hc2.2, hrt, rfl⟩⟩
      · rw [if_neg hc]
        exact hacc

theorem sugFold_inv {terms : List String} (l : List String) (acc : SugAcc) :
    (∀ x ∈ l, x ∈ terms) → (∀ s ∈ acc.out, suggestionOk terms s) →
    ∀ s ∈ (l.foldl (sugStep terms) acc).out, suggestionOk terms s := by
  induction l generalizing acc with
  | nil => intro _ hacc; exact hacc
  | cons x rest ih =>
      intro hsub hacc
      simp only [List.foldl_cons]
      refine ih _ (fun y hy => hsub y (List.mem_cons_of_mem x hy)) ?_
      unfold sugStep
      split
      · exact hacc
      · rename_i hlen
        have hlen2 : 2 < x.length := Nat.lt_of_not_le hlen
        have hx : x ∈ terms := hsub x (List.mem_cons_self x rest)
        unfold sugKeys
        exact sugKeysFold_inv hx hlen2 RELATED_TERMS _ (fun kv hkv => hkv)
          (sugDirect_inv hx hlen2 hacc)

/-! Claim theorems. -/

/-- Claim C2 (code bug evaluation): tokenizing the query `$state` strips the
sigil — the produced term is `state`, the term-weight CASE expression assigns
it weight 1 (not 1.5), the sigil token `$state` is never among the query
terms, and yet the `TERM_WEIGHTS` table itself does carry `$state` at 1.5
(the entry is unreachable from query tokenization). -/
theorem c2_sigil_weight_evaluation :
    queryTerms "$state" = ["state"] ∧
    firstDedup (queryTerms "$state") = ["state"] ∧
    caseWeight (firstDedup (queryTerms "$state")) "state" = 1 ∧
    "$state" ∉ queryTerms "$state" ∧
    termWeightFor "$state" = 3/2 := by
  with_unfolding_all decide

/-- Claim C3 (counterexample): the fallback weighted term list built from the
single distinct term `abcd` contains `abcd` at weight 1 even though its
length is 4, refuting the claimed plain-term bound `length > 4` (the code
requires only `length > 3`). -/
theorem c3_counterexample :
    ("abcd", (1 : ℚ)) ∈ buildFallbackTerms ["abcd"] [] ∧ "abcd".length = 4 := by
  with_unfolding_all decide

/-- Claim C3 (amended): the fallback weighted term list is exactly — every
distinct term containing the sigil or present in `TERM_WEIGHTS` at its
configured weight (default 1.5), then at most 3 plain terms of length > 3
(not > 4) at weight 1, then every phrase at weight 2. -/
theorem c3_amended_fallback_terms (distinct phrases : List String) :
    buildFallbackTerms distinct phrases =
      (distinct.filter
        (fun t => t.data.contains '$' || (lookupAssoc TERM_WEIGHTS t).isSome)).map
        (fun t => (t, (lookupAssoc TERM_WEIGHTS t).getD (3/2)))
      ++ ((distinct.filter (fun t => !t.data.contains '$'
            && (lookupAssoc TERM_WEIGHTS t).isNone && decide (3 < t.length))).take 3).map
          (fun t => (t, (1 : ℚ)))
      ++ phrases.map (fun p => (p, (2 : ℚ))) := by
  unfold buildFallbackTerms
  rw [foldl_push_filter, foldl_push_map, foldl_push_map]
  simp [List.append_assoc]

/-- Claim C5: re-indexing identical content for the same document text is
idempotent — re-running the row upserts of one `process_docs` pass over the
`search_index` table (a finite map on the `(doc_id, term)` PRIMARY KEY, so
duplicate rows cannot exist) leaves the table exactly as after the first
run. -/
theorem c5_reindex_idempotent (t : IndexTable) (content : String)
    (pkg : Option Package) (variant : Option DocVariant) :
    reindex (reindex t content pkg variant) content pkg variant
      = reindex t content pkg variant := by
  funext k
  unfold reindex
  rw [applyOps_eval, applyOps_eval]
  cases hq : findLastVal (indexRows content pkg variant) k <;> simp [hq]

/-- Claim C7: for every input term list the suggestion list has length at
most 5, is sorted non-increasing by relevance, and each suggestion satisfies
`suggestionOk`: it is not a query term, and it carries either the configured
weight of a direct association or 0.8 times it via a mutual-substring key
match. -/
theorem c7_suggestion_contract (terms : List String) :
    (generate_related_suggestions terms).length ≤ 5 ∧
    (generate_related_suggestions terms).Sorted (fun a b => b.relevance ≤ a.relevance) ∧
    ∀ s ∈ generate_related_suggestions terms, suggestionOk terms s := by
  unfold generate_related_suggestions
  refine ⟨List.length_take_le 5 _, ?_, ?_⟩
  · exact sorted_take (sortDescBy_sorted (fun s : RelatedSuggestion => s.relevance) _) 5
  · intro s hs
    have h1 := List.mem_of_mem_take hs
    have h2 := (@mem_sortDescBy RelatedSuggestion (fun s => s.relevance) _ s).mp h1
    exact sugFold_inv terms ⟨[], []⟩ (fun x hx => hx)
      (fun x hx => absurd hx (List.not_mem_nil x)) s h2

/-- Claim C8: during a fresh initialization (no existing documents), the
initialization raises the hard failure exactly when some mandatory package
fetch produced zero content units, and its outcome never depends on the
root-document fetches (whose zero-content or failed fetches are skipped). -/
theorem c8_mandatory_init (count : Nat) (contents : Package → Option String)
    (roots : DocVariant → Option String) (h : count = 0) :
    ((∃ p : Package, fetch_docs_model contents p = []) ↔
      init_docs_model count contents roots
        = Except.error "Failed to fetch required package documentation") ∧
    (∀ roots2, init_docs_model count contents roots
        = init_docs_model count contents roots2) := by
  subst h
  constructor
  · unfold init_docs_model
    rw [if_neg (by omega)]
    by_cases hany : ([Package.svelte, Package.kit, Package.cli].any
        (fun p => decide (fetch_docs_model contents p = []))) = true
    · rw [if_pos hany]
      constructor
      · intro _; rfl
      · intro _
        obtain ⟨p, _, hdec⟩ := List.any_eq_true.mp hany
        exact ⟨p, of_decide_eq_true hdec⟩
    · rw [if_neg hany]
      constructor
      · intro ⟨p, hp⟩
        exfalso
        apply hany
        refine List.any_eq_true.mpr ⟨p, ?_, decide_eq_true hp⟩
        cases p <;> simp
      · intro hcon
        simp at hcon
  · intro roots2
    rfl

/-- Claim C6: for every store, query and filter combination, `search_docs`
returns at most 10 results, sorted non-increasing by relevance score, on
every path (phrase-only, term search, error-collision, fallback). -/
theorem c6_cap_and_order (db : DB) (opts : SearchOptions) :
    (search_docs db opts).results.length ≤ 10 ∧
    (search_docs db opts).results.Sorted
      (fun a b => b.relevance_score ≤ a.relevance_score) := by
  simp only [search_docs]
  split
  · unfold phrase_only_search
    refine ⟨?_, flatten_grouped_sorted _⟩
    rw [flatten_grouped_length, List.length_map]
    exact List.length_take_le 10 _
  · split
    · exact ⟨length_limitMap _, sorted_limitMap _⟩
    · refine ⟨?_, flatten_grouped_sorted _⟩
      rw [flatten_grouped_length]
      split
      · split
        · exact length_limitMap _
        · exact length_limitMap _
      · exact length_limitMap _

/-- Claim C4: when the document-type filter is `error` and the de-duplicated
term set is exactly `["error"]`, `search_docs` returns exactly the direct
error query's results; each of those results is a `docs`–`search_index` join
row with term `error` and type `error`, scored `frequency ×
section_importance` with no term-weight factor, sorted descending and capped
at 10. -/
theorem c4_error_collision_path (db : DB) (q : String) (pk : Option Package)
    (h1 : firstDedup (queryTerms q) = ["error"]) :
    (search_docs db { query := q, doc_type := some DocType.error, package := pk }).results
        = executeDirectErrorSearch db ∧
    (∀ r ∈ executeDirectErrorSearch db, ∃ d ∈ db.docs, ∃ e ∈ db.search_index,
      e.doc_id = d.id ∧ e.term = "error" ∧ d.type = DocType.error ∧
      r.content = d.content ∧
      r.relevance_score = (e.frequency : ℚ) * e.section_importance) ∧
    (executeDirectErrorSearch db).Sorted (fun a b => b.relevance_score ≤ a.relevance_score) ∧
    (executeDirectErrorSearch db).length ≤ 10 := by
  refine ⟨?_, ?_, sorted_limitMap _, length_limitMap _⟩
  · rw [search_docs_error_branch db q pk h1]
  · intro r hr
    obtain ⟨row, hrow, heq⟩ := mem_limitMap hr
    obtain ⟨d, hd, e, he, h2, h3, h4, h5⟩ := mem_errorRows hrow
    subst heq
    subst h5
    exact ⟨d, hd, e, he, h2, h3, h4, rfl, rfl⟩

/-- Claim C10: on the error-collision path the package filter is never
applied — the results with any requested package filter coincide with the
results with no package filter (the direct error query's SQL carries no
package condition). -/
theorem c10_package_filter_ignored (db : DB) (q : String) (pk : Package)
    (h1 : firstDedup (queryTerms q) = ["error"]) :
    (search_docs db { query := q, doc_type := some DocType.error, package := some pk }).results
      = (search_docs db { query := q, doc_type := some DocType.error, package := none }).results := by
  rw [search_docs_error_branch db q (some pk) h1, search_docs_error_branch db q none h1]
theorem mainRows_no_terms (db : DB) :
    mainRows db [] [] none none
      = (docsWithEntries db).map (fun d => mkQRow d (allEntriesScore db d)) := by
  unfold mainRows docsWithEntries
  rw [← filterMap_guard]
  apply List.filterMap_congr
  intro d _
  simp only [entriesFor_nil, phrasesPass, List.all_nil, typePass, pkgPass, Bool.and_true,
    rowScore_nil, allEntriesScore]

/-- Claim C9: a query yielding no terms and no phrases runs the main indexed
query with no term restriction — the result count is 10 capped at the number
of documents having at least one index entry, and every returned result is
such a document scored by the sum of `frequency × section_importance` over
all of its index entries. -/
theorem c9_term_free_query (db : DB) (q : String)
    (h1 : queryTerms q = []) (h2 : queryPhrases q = []) :
    (search_docs db { query := q, doc_type := none, package := none }).results.length
        = min 10 (docsWithEntries db).length ∧
    ∀ r ∈ (search_docs db { query := q, doc_type := none, package := none }).results,
      ∃ d ∈ docsWithEntries db, r.content = d.content ∧
        r.relevance_score = allEntriesScore db d := by
  have hbranch : (search_docs db { query := q, doc_type := none, package := none }).results
      = flatten_grouped_results (group_by_category (mainQuery db [] [] none none)) := by
    simp [search_docs, h1, h2, firstDedup, firstDedupF]
  rw [hbranch]
  constructor
  · rw [flatten_grouped_length]
    show (limitMap (mainRows db [] [] none none)).length = _
    unfold limitMap
    rw [List.length_map, List.length_take]
    have hlen := (sortDescBy_perm (fun r : QRow => r.score) (mainRows db [] [] none none)).length_eq
    rw [hlen, mainRows_no_terms, List.length_map]
  · intro r hr
    have hr2 := mem_flatten_grouped.mp hr
    have hr3 : r ∈ limitMap (mainRows db [] [] none none) := hr2
    obtain ⟨row, hrow, heq⟩ := mem_limitMap hr3
    rw [mainRows_no_terms] at hrow
    obtain ⟨d, hd, hrow2⟩ := List.mem_map.mp hrow
    subst heq
    rw [← hrow2]
    exact ⟨d, hd, rfl, rfl⟩

/-- Claim C1 (counterexample): for the query `error "zzz"` (phrase set
`["zzz"]`) against a store whose only `error`-typed document has content
`"Error handling"`, the error-collision path returns that document even
though its lower-cased content does not contain the phrase `zzz` — refuting
the claim that phrase containment holds on every path. -/
theorem c1_counterexample :
    queryPhrases "error \"zzz\"" = ["zzz"] ∧
    (search_docs errDb
      { query := "error \"zzz\"", doc_type := some DocType.error, package := none }).results.length = 1 ∧
    ∀ r ∈ (search_docs errDb
      { query := "error \"zzz\"", doc_type := some DocType.error, package := none }).results,
      occursIn "zzz".data (lowerStr r.content).data = false := by
  with_unfolding_all decide

/-- Claim C1 (amended): phrase containment holds on the phrase-only path and
on the main indexed query — whenever the error-collision branch is not taken
and (the query has terms implying) the main query returned rows, every
returned document's lower-cased content contains every phrase as a literal
substring. The error-collision path ignores phrases, and the fallback treats
them as optional OR-conditions, so the guarantee does not extend there. -/
theorem c1_phrase_containment (db : DB) (opts : SearchOptions)
    (hNoErr : ¬(opts.doc_type = some DocType.error
      ∧ firstDedup (queryTerms opts.query) = ["error"]))
    (hMain : queryTerms opts.query = [] ∨
      mainRows db (firstDedup (queryTerms opts.query)) (queryPhrases opts.query)
        opts.doc_type opts.package ≠ []) :
    ∀ r ∈ (search_docs db opts).results, ∀ p ∈ queryPhrases opts.query,
      occursIn p.data (lowerStr r.content).data = true := by
  intro r hr p hp
  simp only [search_docs] at hr
  by_cases hphr : queryTerms opts.query = [] ∧ queryPhrases opts.query ≠ []
  · rw [if_pos hphr] at hr
    unfold phrase_only_search at hr
    have hr2 := mem_flatten_grouped.mp hr
    obtain ⟨row, hrow, heq⟩ := List.mem_map.mp hr2
    obtain ⟨d, _, hpass, _, _, hrow3⟩ := mem_phraseRows (List.mem_of_mem_take hrow)
    subst heq
    subst hrow3
    exact phrasesPass_all hpass p hp
  · rw [if_neg hphr] at hr
    by_cases herr : opts.doc_type = some DocType.error
        ∧ firstDedup (queryTerms opts.query) = ["error"]
    · exact absurd herr hNoErr
    · rw [if_neg herr] at hr
      rcases hMain with hT | hM
      · have hP : queryPhrases opts.query = [] := by
          by_contra hne
          exact hphr ⟨hT, hne⟩
        rw [hP] at hp
        exact absurd hp (List.not_mem_nil p)
      · have hprim : mainQuery db (firstDedup (queryTerms opts.query))
            (queryPhrases opts.query) opts.doc_type opts.package ≠ [] :=
          limitMap_ne_nil hM
        rw [if_neg (fun hcon => hprim hcon.1)] at hr
        have hr2 := mem_flatten_grouped.mp hr
        have hr3 : r ∈ limitMap (mainRows db (firstDedup (queryTerms opts.query))
            (queryPhrases opts.query) opts.doc_type opts.package) := hr2
        obtain ⟨row, hrow, heq⟩ := mem_limitMap hr3
        obtain ⟨d, _, _, hpass, _, _, hrow3⟩ := mem_mainRows hrow
        subst heq
        subst hrow3
        exact phrasesPass_all hpass p hp

/-! Witnesses: concrete instantiations of the claim theorems that carry
hypotheses. -/

/-- Witness for the amended C1 theorem at the query `"state management"`
(phrase-only) over `phraseDb`. -/
theorem c1_phrase_containment_witness :
    (¬(({ query := "\"state management\"", doc_type := none,
          package := none } : SearchOptions).doc_type = some DocType.error
      ∧ firstDedup (queryTerms "\"state management\"") = ["error"])) ∧
    queryTerms "\"state management\"" = [] ∧
    (∀ r ∈ (search_docs phraseDb
        { query := "\"state management\"", doc_type := none, package := none }).results,
      ∀ p ∈ queryPhrases "\"state management\"",
        occursIn p.data (lowerStr r.content).data = true) :=
  ⟨by decide, by decide,
    c1_phrase_containment phraseDb
      { query := "\"state management\"", doc_type := none, package := none }
      (by decide) (Or.inl (by decide))⟩

/-- Witness for the C4 theorem at the query `error` with document-type filter
`error` over `errDb`. -/
theorem c4_error_collision_witness :
    firstDedup (queryTerms "error") = ["error"] ∧
    ((search_docs errDb
        { query := "error", doc_type := some DocType.error, package := none }).results
        = executeDirectErrorSearch errDb ∧
     (∀ r ∈ executeDirectErrorSearch errDb, ∃ d ∈ errDb.docs, ∃ e ∈ errDb.search_index,
        e.doc_id = d.id ∧ e.term = "error" ∧ d.type = DocType.error ∧
        r.content = d.content ∧
        r.relevance_score = (e.frequency : ℚ) * e.section_importance) ∧
     (executeDirectErrorSearch errDb).Sorted
        (fun a b => b.relevance_score ≤ a.relevance_score) ∧
     (executeDirectErrorSearch errDb).length ≤ 10) :=
  ⟨by decide, c4_error_collision_path errDb "error" none (by decide)⟩

/-- Witness for the C8 theorem: a fresh initialization whose three mandatory
package fetches each produce one content unit. -/
theorem c8_mandatory_init_witness :
    (0 : Nat) = 0 ∧
    (((∃ p : Package, fetch_docs_model (fun _ => some "Hello world") p = []) ↔
      init_docs_model 0 (fun _ => some "Hello world") (fun _ => none)
        = Except.error "Failed to fetch required package documentation") ∧
     (∀ roots2, init_docs_model 0 (fun _ => some "Hello world") (fun _ => none)
        = init_docs_model 0 (fun _ => some "Hello world") roots2)) ∧
    init_docs_model 0 (fun p => if p = Package.svelte then none else some "Hello")
        (fun _ => none)
      = Except.error "Failed to fetch required package documentation" :=
  ⟨rfl, c8_mandatory_init 0 (fun _ => some "Hello world") (fun _ => none) rfl, rfl⟩

/-- Witness for the C9 theorem at the term-free, phrase-free query `a b !`
over `errDb`. -/
theorem c9_term_free_query_witness :
    queryTerms "a b !" = [] ∧ queryPhrases "a b !" = [] ∧
    ((search_docs errDb { query := "a b !", doc_type := none, package := none }).results.length
        = min 10 (docsWithEntries errDb).length ∧
     ∀ r ∈ (search_docs errDb { query := "a b !", doc_type := none, package := none }).results,
      ∃ d ∈ docsWithEntries errDb, r.content = d.content ∧
        r.relevance_score = allEntriesScore errDb d) :=
  ⟨by decide, by decide, c9_term_free_query errDb "a b !" (by decide) (by decide)⟩

/-- Witness for the C10 theorem over `errDb` (whose only document has package
`kit`): requesting the `svelte` package filter returns the same results as no
filter, and that result list consists of the `kit` document. -/
theorem c10_package_filter_ignored_witness :
    firstDedup (queryTerms "error") = ["error"] ∧
    (search_docs errDb
        { query := "error", doc_type := some DocType.error, package := some Package.svelte }).results
      = (search_docs errDb
        { query := "error", doc_type := some DocType.error, package := none }).results ∧
    (search_docs errDb
        { query := "error", doc_type := some DocType.error,
          package := some Package.svelte }).results.map (fun r => r.package)
      = [some Package.kit] :=
  ⟨by decide, c10_package_filter_ignored errDb "error" Package.svelte (by decide),
    by with_unfolding_all decide⟩
